import Mathlib

set_option maxHeartbeats 1000000

namespace TestKit

/-- Glyph constant from src/TestKit.hpp line 25. -/
def CHECK_MARK : String := "✓"

/-- Glyph constant from src/TestKit.hpp line 26. -/
def CROSS_MARK : String := "✘"

/-- Glyph constant from src/TestKit.hpp line 27. -/
def CIRCLE_SYM : String := "○"

/-- ANSI constant from src/TestKit.hpp line 28. -/
def ANSI_RESET : String := "\x1b[0m"

/-- ANSI constant from src/TestKit.hpp line 29. -/
def ANSI_GRAY : String := "\x1b[38;5;246m"

/-- ANSI constant from src/TestKit.hpp line 30. -/
def ANSI_GREEN : String := "\x1b[38;5;42m"

/-- ANSI constant from src/TestKit.hpp line 31. -/
def ANSI_RED : String := "\x1b[38;5;196m"

/-- ANSI constant from src/TestKit.hpp line 32. -/
def ANSI_DARK_GREEN : String := "\x1b[38;5;28m"

/-- ANSI constant from src/TestKit.hpp line 33. -/
def ANSI_DARK_RED : String := "\x1b[38;5;160m"

/-- ANSI constant from src/TestKit.hpp line 34. -/
def ANSI_ITALIC : String := "\x1b[3m"

/-- Model of enum class TestKit::Outcome (src/TestKit.hpp lines 49-53):
None means the test did not run; the spec calls this value NotRun. -/
inductive Outcome where
  | None
  | Failed
  | Passed
deriving DecidableEq

/-- Model of the TestKit node tree. A Task (src/TestKit.hpp lines 83-96)
carries a name, a source location (file plus line, flattened from
std::source_location) and a fixed outcome. A Segment
(src/TestKit.hpp lines 101-123) carries a name, its ordered list of child
nodes (the m_nodes vector; m_segments and m_tasks only provide storage and
are subsumed by ownership in the list) and the m_didFail flag. -/
inductive Node where
  | task (m_name : String) (m_file : String) (m_line : Nat) (m_outcome : Outcome)
  | seg (m_name : String) (m_nodes : List Node) (m_didFail : Bool)

mutual

/-- Model of TestKit::Task::Check (src/TestKit.hpp lines 254-257) and
TestKit::Segment::Check (src/TestKit.hpp lines 284-309): a task returns its
fixed outcome; a segment with no nodes returns None, otherwise the loop in
checkList runs over the children. -/
def Node.Check : Node → Outcome
  | .task _ _ _ o => o
  | .seg _ ns _ => if ns.isEmpty then .None else checkList ns true true

/-- Model of the loop in TestKit::Segment::Check
(src/TestKit.hpp lines 289-308): the accumulators are allPassed and
allAreNone; any child whose Check is Failed short-circuits the whole loop
to Failed; after the loop, allPassed yields Passed, allAreNone yields None,
and the remaining branch (the asserted-dead branch at line 307) yields
Failed. -/
def checkList : List Node → Bool → Bool → Outcome
  | [], allPassed, allAreNone =>
      if allPassed then .Passed else if allAreNone then .None else .Failed
  | n :: rest, allPassed, allAreNone =>
      let o := n.Check
      if o = .Failed then .Failed
      else checkList rest (allPassed && (o == .Passed)) (allAreNone && (o == .None))

end

example : Node.Check (.seg "" [] false) = .None := by decide

example : Node.Check (.seg "" [.task "t" "f" 1 .Passed] false) = .Passed := by decide

example :
    Node.Check (.seg "" [.task "t" "f" 1 .Passed, .task "u" "f" 2 .Failed] false) =
      .Failed := by decide

example :
    Node.Check (.seg "" [.seg "A" [.task "t" "f" 1 .Passed] false, .seg "B" [] false] false) =
      .Failed := by decide

/-- Model of TestKit::Segment::DidFail (src/TestKit.hpp line 113). -/
def Node.DidFail : Node → Bool
  | .task _ _ _ _ => false
  | .seg _ _ df => df

/-- Model of TestKit::Segment::MarkFailed (src/TestKit.hpp line 111):
sets m_didFail to true. -/
def markFailed : Node → Node
  | .seg nm ns _ => .seg nm ns true
  | n => n

/-- Model of TestKit::Segment::Build (src/TestKit.hpp lines 262-267):
a fresh segment with the given name, no children, m_didFail false. -/
def Segment.Build (name : String) : Node := .seg name [] false

/-- Model of TestKit::Task::Build without a result
(src/TestKit.hpp lines 239-245): outcome stays at its default None. -/
def Task.BuildNoResult (name file : String) (line : Nat) : Node :=
  .task name file line .None

/-- Model of TestKit::Task::Build with a result
(src/TestKit.hpp lines 247-252): outcome is Passed when the boolean is
true, Failed when it is false. -/
def Task.BuildWithResult (name file : String) (line : Nat) (result : Bool) : Node :=
  .task name file line (if result then .Passed else .Failed)

/-- Model of TestKit::Segment::AddSegment (src/TestKit.hpp lines 269-275):
the attached child's m_didFail is overwritten with the parent's current
m_didFail (the snapshot), then the child is appended to the node list. -/
def addSegment : Node → Node → Node
  | .seg nm ns df, .seg cn cns _ => .seg nm (ns ++ [.seg cn cns df]) df
  | p, _ => p

/-- Model of TestKit::Segment::AddTask (src/TestKit.hpp lines 277-282):
the task is appended to the node list. -/
def addTask : Node → Node → Node
  | .seg nm ns df, t => .seg nm (ns ++ [t]) df
  | p, _ => p

/-- Lookup of the node denoted by a path of child indices, modelling a
Segment pointer into the tree owned by the root. -/
def getAt : Node → List Nat → Option Node
  | n, [] => some n
  | .seg _ ns _, i :: p =>
      match ns[i]? with
      | some c => getAt c p
      | none => none
  | .task _ _ _ _, _ :: _ => none

/-- In-place update of the node denoted by a path, modelling a mutation
performed through a Segment pointer into the tree owned by the root. -/
def updateAt (f : Node → Node) : Node → List Nat → Node
  | n, [] => f n
  | .seg nm ns df, i :: p =>
      match ns[i]? with
      | some c => .seg nm (ns.set i (updateAt f c p)) df
      | none => .seg nm ns df
  | n, _ :: _ => n

/-- Model of TestKit::Options (src/TestKit.hpp lines 58-61). -/
structure Options where
  detailDepth : Int
deriving DecidableEq

/-- The process-wide state of TestKit (src/TestKit.hpp lines 139-149):
the root segment __internal_root, the scope stack
__internal_segment_stack (held as paths into the root tree, head is the
top of the stack) and the current options __internal_curr_options. -/
structure State where
  root : Node
  stack : List (List Nat)
  opts : Options

/-- The initial process-wide state: root = Segment::Build(""), stack
holding exactly the root, detailDepth = -1
(src/TestKit.hpp lines 141-144). -/
def initState : State :=
  { root := Segment.Build "", stack := [[]], opts := { detailDepth := -1 } }

/-- The path held by the top of the scope stack. -/
def topPath (s : State) : List Nat := s.stack.headD []

/-- Model of TestKit::SegmentScopeManager::SegmentScopeManager
(src/TestKit.hpp lines 314-319): reads the top of the stack, attaches a
freshly built segment to it via AddSegment, and pushes the new segment. -/
def enterScope (name : String) (s : State) : State :=
  let p := topPath s
  match getAt s.root p with
  | some (.seg _ ns _) =>
      { s with
        root := updateAt (fun n => addSegment n (Segment.Build name)) s.root p,
        stack := (p ++ [ns.length]) :: s.stack }
  | _ => s

/-- Model of TestKit::SegmentScopeManager::~SegmentScopeManager
(src/TestKit.hpp lines 321-325): pops the last added segment from the
stack (the destructor asserts the stack holds more than one entry). -/
def exitScope (s : State) : State := { s with stack := s.stack.tail }

/-- Model of the macro __INTERNAL_TK_REQUIRE_2
(src/TestKit.hpp lines 369-382): reads the top of the stack; if that
segment already failed, a task built without a result is appended;
otherwise the segment is marked failed when the condition is false, and a
task built with the condition's value is appended. -/
def requireOp (msg file : String) (line : Nat) (cond : Bool) (s : State) : State :=
  let p := topPath s
  match getAt s.root p with
  | some (.seg _ _ df) =>
      if df then
        { s with root := updateAt (fun n => addTask n (Task.BuildNoResult msg file line)) s.root p }
      else
        { s with
          root := updateAt
            (fun n => addTask (if cond then n else markFailed n)
              (Task.BuildWithResult msg file line cond)) s.root p }
  | _ => s

/-- Model of the macro __INTERNAL_TK_CHECK_2
(src/TestKit.hpp lines 384-395): like requireOp, except that no segment is
ever marked failed. -/
def checkOp (msg file : String) (line : Nat) (cond : Bool) (s : State) : State :=
  let p := topPath s
  match getAt s.root p with
  | some (.seg _ _ df) =>
      if df then
        { s with root := updateAt (fun n => addTask n (Task.BuildNoResult msg file line)) s.root p }
      else
        { s with
          root := updateAt
            (fun n => addTask n (Task.BuildWithResult msg file line cond)) s.root p }
  | _ => s

/-- Model of TestKit::SetNewOptions (src/TestKit.hpp line 146). -/
def SetNewOptions (newOptions : Options) (s : State) : State :=
  { s with opts := newOptions }

/-- Model of TestKit::Reset (src/TestKit.hpp lines 335-346): clears the
root's failed flag and children, empties the stack and pushes back the
root. The options are not touched. -/
def Reset (s : State) : State :=
  { s with
    root := (match s.root with
      | .seg nm _ _ => .seg nm [] false
      | n => n),
    stack := [[]] }

/-- A run of n spaces, modelling std::string(n, ' '). -/
def spaces (n : Nat) : String := String.mk (List.replicate n ' ')

/-- The value of the C cast (uint16_t)x applied to an int value x, then
read back as an int (as done in the comparison at src/TestKit.hpp
line 212): reduction modulo 2^16. -/
def uint16Cast (x : Int) : Int := x.emod 65536

/-- The glyph-plus-color chosen for a task by its outcome
(src/TestKit.hpp lines 162-174). -/
def taskGlyph : Outcome → String
  | .Passed => ANSI_GREEN ++ CHECK_MARK
  | .None => ANSI_GRAY ++ CIRCLE_SYM
  | .Failed => ANSI_RED ++ CROSS_MARK

/-- The diagnostic suffix appended for a failed task
(src/TestKit.hpp line 179, the std::format call). -/
def taskLocation (file : String) (line : Nat) : String :=
  " ( at file: " ++ file ++ ", line: " ++ toString line ++ " )"

/-- Model of TestKit::ReportGenerator::Stringify(const Task*, int)
(src/TestKit.hpp lines 154-183), on the fields of the task: negative depth
yields the empty string; otherwise 2 spaces per depth, the glyph for the
outcome, a space and the name, the location suffix only when Failed, and a
trailing ANSI reset. -/
def stringifyTask (name file : String) (line : Nat) (outcome : Outcome) (depth : Int) : String :=
  if depth < 0 then ""
  else
    let out := spaces (2 * depth.toNat)
    let out := out ++ taskGlyph outcome
    let out := out ++ " " ++ name
    let out := if outcome = .Failed then out ++ taskLocation file line else out
    out ++ ANSI_RESET

/-- The annotation appended after the segment name and colon
(src/TestKit.hpp lines 200-208). -/
def segAnnotation : Outcome → String
  | .Passed => ANSI_ITALIC ++ ANSI_DARK_GREEN ++ " [all tests passed]"
  | .Failed => ANSI_ITALIC ++ ANSI_DARK_RED ++ " [some tests failed]"
  | .None => ""

mutual

/-- Model of TestKit::ReportGenerator::Stringify(const Segment*, int)
(src/TestKit.hpp lines 185-234). Applied to a task node it returns ""
(the Segment overload is only ever handed segments). For a segment:
indentation unless depth is negative; ANSI gray when the outcome is None;
the name; when the outcome is not None a colon, the annotation, a reset,
the whole line discarded when depth is negative, and the children rendered
when depth < (uint16_t)detailDepth or the outcome is Failed; finally a
trailing reset. -/
def stringifySeg (dd : Int) (n : Node) (depth : Int) : String :=
  match n with
  | .task _ _ _ _ => ""
  | .seg name ns df =>
      let out := if depth < 0 then "" else spaces (2 * depth.toNat)
      let outcome := Node.Check (.seg name ns df)
      let out := if outcome = .None then out ++ ANSI_GRAY else out
      let out := out ++ name
      if outcome ≠ .None then
        let out := out ++ ":"
        let out := out ++ segAnnotation outcome
        let out := out ++ ANSI_RESET
        let out := if depth < 0 then "" else out
        let out :=
          if depth < uint16Cast dd ∨ outcome = .Failed then
            stringifyChildren dd ns depth out
          else out
        out ++ ANSI_RESET
      else
        out ++ ANSI_RESET

/-- Model of the child-rendering loop at src/TestKit.hpp lines 214-229:
each sub-segment first pads the accumulated string with a newline unless
it already ends with one, then appends a blank line, its rendering at
depth+1 and a newline; each task appends a newline and its rendering at
depth+1. -/
def stringifyChildren (dd : Int) (ns : List Node) (depth : Int) (out : String) : String :=
  match ns with
  | [] => out
  | n :: rest =>
      let out :=
        match n with
        | .seg a b c =>
            let out := if ¬ (out.endsWith "\n") then out ++ "\n" else out
            out ++ "\n" ++ stringifySeg dd (.seg a b c) (depth + 1) ++ "\n"
        | .task a b c d => out ++ "\n" ++ stringifyTask a b c d (depth + 1)
      stringifyChildren dd rest depth out

end

/-- Stripping of the leading newlines of a string, modelling the
substr/find_first_not_of pair at src/TestKit.hpp line 351 on its actual
input (which always holds a character other than a newline, so
find_first_not_of never returns npos there). -/
def dropLeadingNewlines (s : String) : String :=
  String.mk (s.data.dropWhile (fun c => c == '\n'))

/-- Model of TestKit::GenerateReport (src/TestKit.hpp lines 348-353):
stringify the root at depth -1 and strip the leading newlines. -/
def GenerateReport (s : State) : String :=
  dropLeadingNewlines (stringifySeg s.opts.detailDepth s.root (-1))

/-- The exact condition under which Stringify(const Segment*, int) renders
the segment's children: the outcome test at src/TestKit.hpp line 198
composed with the depth-budget-or-failed guard at line 212. -/
def childrenRendered (dd : Int) (n : Node) (depth : Int) : Prop :=
  Node.Check n ≠ .None ∧ (depth < uint16Cast dd ∨ Node.Check n = .Failed)

instance (dd : Int) (n : Node) (depth : Int) : Decidable (childrenRendered dd n depth) := by
  unfold childrenRendered
  infer_instance

/-- One public-API operation issued against the process-wide state:
entering a named scope (the SECTION macro constructing a
SegmentScopeManager), leaving it (the destructor), recording a strict or a
soft assertion (the REQUIRE and CHECK macros, with the already-expanded
message, source location and condition value), installing new options, and
generating a report (which reads but does not change the state). -/
inductive Op where
  | enter (name : String)
  | leave
  | require (msg file : String) (line : Nat) (cond : Bool)
  | check (msg file : String) (line : Nat) (cond : Bool)
  | setOpts (newOptions : Options)
  | genReport

/-- Apply one operation to the state. -/
def applyOp (op : Op) (s : State) : State :=
  match op with
  | .enter nm => enterScope nm s
  | .leave => exitScope s
  | .require m f l c => requireOp m f l c s
  | .check m f l c => checkOp m f l c s
  | .setOpts o => SetNewOptions o s
  | .genReport => s

/-- Run a sequence of operations from a state. -/
def run (ops : List Op) (s : State) : State := ops.foldl (fun s op => applyOp op s) s

/-- Number of scope entries in a sequence. -/
def entersCount (ops : List Op) : Nat :=
  ops.countP (fun op => match op with | .enter _ => true | _ => false)

/-- Number of scope exits in a sequence. -/
def leavesCount (ops : List Op) : Nat :=
  ops.countP (fun op => match op with | .leave => true | _ => false)

/-- A balanced sequence of operations: in every initial portion of the
sequence, at most as many scopes have been left as have been entered.
This is exactly what the RAII discipline of SegmentScopeManager guarantees
at every call site: a destructor only ever runs for a previously run
constructor. -/
def Balanced (ops : List Op) : Prop :=
  ∀ k, k ≤ ops.length → leavesCount (ops.take k) ≤ entersCount (ops.take k)

instance (ops : List Op) : Decidable (Balanced ops) := by
  unfold Balanced
  infer_instance

/-- The condition of the assert at src/TestKit.hpp line 307 being reached
on a node: the segment has children, none of them (so also no early
short-circuit) checks as Failed, and the loop ends with allPassed and
allAreNone both false, i.e. neither do all children check as Passed nor do
all check as None. -/
def assertMixed (n : Node) : Bool :=
  match n with
  | .seg _ ns _ =>
      (¬ ns.isEmpty) && (¬ ns.any (fun c => c.Check == .Failed)) &&
        (¬ ns.all (fun c => c.Check == .Passed)) && (¬ ns.all (fun c => c.Check == .None))
  | .task _ _ _ _ => false

/-- The part of Stringify(const Segment*, int) built before the children
loop (src/TestKit.hpp lines 190-211): indentation, gray color and name for
a None segment; for the other outcomes the (possibly discarded, at
negative depth) line name + ":" + annotation + reset. -/
def segHeader (nm : String) (o : Outcome) (depth : Int) : String :=
  if o = .None then
    (if depth < 0 then "" else spaces (2 * depth.toNat)) ++ ANSI_GRAY ++ nm
  else if depth < 0 then ""
  else spaces (2 * depth.toNat) ++ nm ++ ":" ++ segAnnotation o ++ ANSI_RESET

/-- Does the path denote a segment node of the tree owned by the root? -/
def isSegAtB (root : Node) (p : List Nat) : Bool :=
  match getAt root p with
  | some (.seg _ _ _) => true
  | _ => false

/-- One path extends another: q is an initial portion of p. -/
def isPre (q p : List Nat) : Prop := ∃ r, p = q ++ r

/-- Shape invariant of the scope stack (top first): nonempty, each entry
extends the entry below it by exactly one child index, and the bottom
entry is the root path. -/
def stackChain : List (List Nat) → Prop
  | [] => False
  | [p] => p = []
  | p :: q :: rest => (∃ i, p = q ++ [i]) ∧ stackChain (q :: rest)

/-- Invariant tying the scope stack to the tree: the stack is a chain of
paths ending at the root path, and every entry denotes a live segment of
the tree reachable from the root. -/
def Inv (s : State) : Prop :=
  stackChain s.stack ∧ ∀ p ∈ s.stack, isSegAtB s.root p = true

/-- Safety of an operation sequence run while the scope stack currently
holds d entries: every leave happens with at least two entries on the
stack (so the sole root is never popped). -/
def SafeFrom : Nat → List Op → Prop
  | _, [] => True
  | d, op :: rest =>
      match op with
      | .leave => 2 ≤ d ∧ SafeFrom (d - 1) rest
      | .enter _ => SafeFrom (d + 1) rest
      | _ => SafeFrom d rest

/-- The name of the node (m_name of a task or a segment). -/
def nodeName : Node → String
  | .task nm _ _ _ => nm
  | .seg nm _ _ => nm

/-- The sequence of public-API operations issued by
SECTION("A") { REQUIRE("t", true); } SECTION("B") { }
followed by a report: segment A ends up Passed, segment B ends up None. -/
def mixedOps : List Op :=
  [.enter "A", .require "t" "f" 7 true, .leave, .enter "B", .leave, .genReport]

/-- Closed form of the loop of Segment::Check: a Failed child dominates,
then the allPassed accumulator decides Passed, then the allAreNone
accumulator decides None, and the asserted-dead branch yields Failed. -/
theorem checkList_eq (ns : List Node) (aP aN : Bool) :
    checkList ns aP aN =
      if ns.any (fun c => c.Check == .Failed) then .Failed
      else if aP && ns.all (fun c => c.Check == .Passed) then .Passed
      else if aN && ns.all (fun c => c.Check == .None) then .None
      else .Failed := by
  induction ns generalizing aP aN with
  | nil => simp [checkList]
  | cons n rest ih =>
      rcases h : n.Check with _ | _ | _ <;>
        simp [checkList, h, ih, Bool.and_assoc, Bool.and_left_comm, Bool.and_comm]

/-- Closed form of Segment::Check on a segment node. -/
theorem seg_check_eq (nm : String) (ns : List Node) (df : Bool) :
    Node.Check (.seg nm ns df) =
      if ns.isEmpty then .None
      else if ns.any (fun c => c.Check == .Failed) then .Failed
      else if ns.all (fun c => c.Check == .Passed) then .Passed
      else if ns.all (fun c => c.Check == .None) then .None
      else .Failed := by
  rw [Node.Check, checkList_eq]
  simp

/-- C1: Segment.Check computes the aggregate outcome of a segment from
its ordered children: a segment with no children returns NotRun (None); a
segment with at least one child whose Check() is Failed returns Failed; a
segment with children all of whose children return Passed returns Passed;
a segment all of whose children return NotRun returns NotRun. -/
theorem C1_segment_check_aggregation (nm : String) (ns : List Node) (df : Bool) :
    (ns = [] → Node.Check (.seg nm ns df) = .None) ∧
    ((∃ c ∈ ns, c.Check = .Failed) → Node.Check (.seg nm ns df) = .Failed) ∧
    (ns ≠ [] → (∀ c ∈ ns, c.Check = .Passed) → Node.Check (.seg nm ns df) = .Passed) ∧
    ((∀ c ∈ ns, c.Check = .None) → Node.Check (.seg nm ns df) = .None) := by
  rw [seg_check_eq]
  refine ⟨?_, ?_, ?_, ?_⟩
  · rintro rfl
    simp
  · rintro ⟨c, hc, hf⟩
    have hany : ns.any (fun c => c.Check == .Failed) = true :=
      List.any_eq_true.mpr ⟨c, hc, by simp [hf]⟩
    simp [hany, List.isEmpty_eq_true, List.ne_nil_of_mem hc]
  · intro hne hall
    have hall' : ns.all (fun c => c.Check == .Passed) = true :=
      List.all_eq_true.mpr (fun c hc => by simp [hall c hc])
    have hany : ns.any (fun c => c.Check == .Failed) = false := by
      rw [List.any_eq_false]
      intro c hc
      simp [hall c hc]
    simp [hany, hall', List.isEmpty_eq_true, hne]
  · intro hall
    rcases hns : ns.isEmpty with _ | _
    · have hall' : ns.all (fun c => c.Check == .None) = true :=
        List.all_eq_true.mpr (fun c hc => by simp [hall c hc])
      have hany : ns.any (fun c => c.Check == .Failed) = false := by
        rw [List.any_eq_false]
        intro c hc
        simp [hall c hc]
      have hnp : ns.all (fun c => c.Check == .Passed) = false := by
        rcases (List.isEmpty_eq_false.mp hns : ns ≠ []) with h
        match ns, hall with
        | c :: rest, hall =>
            simp [hall c (List.mem_cons_self c rest)]
      simp [hns, hany, hall', hnp]
    · simp [hns]

/-- Updating a tree at a path and reading the same path back yields the
updated node. -/
theorem getAt_updateAt_self (p : List Nat) (f : Node → Node) :
    ∀ (root n : Node), getAt root p = some n →
      getAt (updateAt f root p) p = some (f n) := by
  induction p with
  | nil =>
      intro root n h
      simp only [getAt] at h ⊢
      simp only [updateAt]
      exact congrArg (fun x => Option.map f x) h
  | cons i p' ih =>
      intro root n h
      cases root with
      | task a b c d => simp [getAt] at h
      | seg nm ns df =>
          simp only [getAt] at h
          rcases hg : ns[i]? with _ | c
          · rw [hg] at h
            simp at h
          · rw [hg] at h
            simp only at h
            have hlt : i < ns.length := by
              by_contra hle
              rw [List.getElem?_eq_none (by omega)] at hg
              exact Option.noConfusion hg
            simp only [updateAt, hg]
            simp only [getAt, List.getElem?_set_eq_of_lt _ hlt]
            exact ih c n h

/-- Reading a concatenated path is reading the first part and then the
second. -/
theorem getAt_append (p q : List Nat) :
    ∀ root : Node, getAt root (p ++ q) = (getAt root p).bind (fun m => getAt m q) := by
  induction p with
  | nil =>
      intro root
      simp [getAt]
  | cons i p' ih =>
      intro root
      cases root with
      | task a b c d => simp [getAt]
      | seg nm ns df =>
          simp only [List.cons_append, getAt]
          rcases hg : ns[i]? with _ | c
          · simp
          · simp only
            exact ih c

/-- Updating below a path that denotes a segment, through a function that
keeps segments segments, keeps every initial portion of the path denoting
a segment. -/
theorem isSegAtB_updateAt (f : Node → Node)
    (hf : ∀ nm ns df, ∃ nm' ns' df', f (.seg nm ns df) = .seg nm' ns' df') :
    ∀ (q p : List Nat) (root : Node), isPre q p →
      isSegAtB root q = true → isSegAtB (updateAt f root p) q = true := by
  intro q
  induction q with
  | nil =>
      intro p root _ hq
      cases root with
      | task a b c d => simp [isSegAtB, getAt] at hq
      | seg nm ns df =>
          cases p with
          | nil =>
              rcases hf nm ns df with ⟨nm', ns', df', hfe⟩
              simp [updateAt, isSegAtB, getAt, hfe]
          | cons i p' =>
              simp only [updateAt]
              rcases hg : ns[i]? with _ | c <;> simp [isSegAtB, getAt]
  | cons j q' ih =>
      intro p root hq hseg
      rcases hq with ⟨r, rfl⟩
      cases root with
      | task a b c d => simp [isSegAtB, getAt] at hseg
      | seg nm ns df =>
          simp only [isSegAtB, getAt] at hseg
          rcases hg : ns[j]? with _ | c
          · rw [hg] at hseg
            simp at hseg
          · rw [hg] at hseg
            simp only at hseg
            have hlt : j < ns.length := by
              by_contra hle
              rw [List.getElem?_eq_none (by omega)] at hg
              exact Option.noConfusion hg
            simp only [List.cons_append, updateAt, hg]
            simp only [isSegAtB, getAt, List.getElem?_set_eq_of_lt _ hlt]
            exact ih (q' ++ r) c ⟨r, rfl⟩ hseg

/-- Frame property: updating the segment at a path through a function
that only appends children leaves every previously attached child subtree
unchanged. -/
theorem getAt_updateAt_old_child (f : Node → Node) (root : Node) (p : List Nat)
    (nm : String) (ns : List Node) (df : Bool)
    (h : getAt root p = some (.seg nm ns df))
    (nm2 : String) (extra : List Node) (df2 : Bool)
    (hf : f (.seg nm ns df) = .seg nm2 (ns ++ extra) df2)
    (j : Nat) (hj : j < ns.length) (rest : List Nat) :
    getAt (updateAt f root p) (p ++ j :: rest) = getAt root (p ++ j :: rest) := by
  rw [getAt_append, getAt_append, getAt_updateAt_self p f root _ h, h]
  simp only [Option.some_bind]
  rw [hf]
  simp only [getAt, List.getElem?_append_left hj]

/-- C2: once a segment's hasFailedFlag is true, a REQUIRE recorded in
that segment appends a Task built without a result, whose Check() is
NotRun (None); while the flag is false, the recorded Task carries the
boolean result (Passed for true, Failed for false), a false result sets
the flag (the flag after recording is the old flag or-ed with the negated
condition), and after recording a false result the segment's Check() is
Failed. -/
theorem C2_require_short_circuit (s : State) (msg file : String) (line : Nat) (cond : Bool)
    (nm : String) (ns : List Node) (df : Bool)
    (h : getAt s.root (topPath s) = some (.seg nm ns df)) :
    (requireOp msg file line cond s).stack = s.stack ∧
    (df = true →
      getAt (requireOp msg file line cond s).root (topPath s) =
        some (.seg nm (ns ++ [.task msg file line .None]) true) ∧
      Node.Check (.task msg file line .None) = .None) ∧
    (df = false →
      getAt (requireOp msg file line cond s).root (topPath s) =
        some (.seg nm (ns ++ [.task msg file line (if cond then .Passed else .Failed)]) (!cond)) ∧
      (cond = false →
        Node.Check (.seg nm (ns ++ [.task msg file line .Failed]) true) = .Failed)) := by
  refine ⟨?_, ?_, ?_⟩
  · simp only [requireOp, h]
    cases df <;> simp
  · rintro rfl
    refine ⟨?_, rfl⟩
    have hroot : (requireOp msg file line cond s).root =
        updateAt (fun n => addTask n (Task.BuildNoResult msg file line)) s.root (topPath s) := by
      simp [requireOp, h]
    rw [hroot, getAt_updateAt_self _ _ _ _ h]
    simp [addTask, Task.BuildNoResult]
  · rintro rfl
    refine ⟨?_, ?_⟩
    · have hroot : (requireOp msg file line cond s).root =
          updateAt
            (fun n => addTask (if cond then n else markFailed n)
              (Task.BuildWithResult msg file line cond)) s.root (topPath s) := by
        simp [requireOp, h]
      rw [hroot, getAt_updateAt_self _ _ _ _ h]
      cases cond <;> simp [addTask, markFailed, Task.BuildWithResult]
    · rintro rfl
      rw [seg_check_eq]
      simp [Node.Check]

/-- Witness for C2: in a segment that already failed (scope "S" after
REQUIRE("a", false)), a further REQUIRE("b", true) is recorded as a task
without a result, shown by the resulting child list. -/
theorem C2_require_short_circuit_witness :
    getAt (requireOp "b" "g" 2 true (run [.enter "S", .require "a" "g" 1 false] initState)).root
        (topPath (run [.enter "S", .require "a" "g" 1 false] initState)) =
      some (.seg "S" [.task "a" "g" 1 .Failed, .task "b" "g" 2 .None] true) :=
  ((C2_require_short_circuit (run [.enter "S", .require "a" "g" 1 false] initState)
      "b" "g" 2 true "S" [.task "a" "g" 1 .Failed] true rfl).2.1 rfl).1

/-- C4 counterexample: CHECK("c", false) issued in a fresh segment "S"
whose hasFailedFlag is false records a Failed task, but the segment's
hasFailedFlag stays false afterwards — the soft variant does not call
MarkFailed, contrary to the claim that it sets the flag identically to
REQUIRE. -/
theorem C4_check_counterexample :
    getAt (run [.enter "S", .check "c" "g" 1 false] initState).root [0] =
        some (.seg "S" [.task "c" "g" 1 .Failed] false) ∧
    (getAt (run [.enter "S", .check "c" "g" 1 false] initState).root [0]).map Node.DidFail =
        some false :=
  ⟨rfl, rfl⟩

/-- C4 amended: the soft variant (CHECK) records the boolean result
exactly like REQUIRE but never touches the segment's hasFailedFlag: after
CHECK records a false condition in a segment whose flag was not yet set,
that segment's hasFailedFlag is still false (and when the flag was
already set, CHECK appends a no-result task like REQUIRE does, leaving
the flag true). -/
theorem C4_check_never_marks_failed (s : State) (msg file : String) (line : Nat) (cond : Bool)
    (nm : String) (ns : List Node) (df : Bool)
    (h : getAt s.root (topPath s) = some (.seg nm ns df)) :
    (checkOp msg file line cond s).stack = s.stack ∧
    (df = false →
      getAt (checkOp msg file line cond s).root (topPath s) =
        some (.seg nm (ns ++ [.task msg file line (if cond then .Passed else .Failed)]) false)) ∧
    (df = true →
      getAt (checkOp msg file line cond s).root (topPath s) =
        some (.seg nm (ns ++ [.task msg file line .None]) true)) := by
  refine ⟨?_, ?_, ?_⟩
  · simp only [checkOp, h]
    cases df <;> simp
  · rintro rfl
    have hroot : (checkOp msg file line cond s).root =
        updateAt (fun n => addTask n (Task.BuildWithResult msg file line cond)) s.root
          (topPath s) := by
      simp [checkOp, h]
    rw [hroot, getAt_updateAt_self _ _ _ _ h]
    simp [addTask, Task.BuildWithResult]
  · rintro rfl
    have hroot : (checkOp msg file line cond s).root =
        updateAt (fun n => addTask n (Task.BuildNoResult msg file line)) s.root (topPath s) := by
      simp [checkOp, h]
    rw [hroot, getAt_updateAt_self _ _ _ _ h]
    simp [addTask, Task.BuildNoResult]

/-- Witness for the amended C4: CHECK("c", false) in fresh segment "S"
leaves the flag false while recording the Failed task. -/
theorem C4_check_never_marks_failed_witness :
    getAt (checkOp "c" "g" 1 false (run [.enter "S"] initState)).root
        (topPath (run [.enter "S"] initState)) =
      some (.seg "S" [.task "c" "g" 1 .Failed] false) :=
  ((C4_check_never_marks_failed (run [.enter "S"] initState) "c" "g" 1 false
      "S" [] false rfl).2.1 rfl)

/-- C3: the state guarded against by the assert at src/TestKit.hpp
line 307 (some children Passed, some NotRun, none Failed) IS reachable
through the public API from a fresh root: after SECTION("A") containing
one passing REQUIRE and an empty SECTION("B"), the root's children check
as Passed and NotRun with no Failed, so the Check() performed while
generating the report runs into the assert (and, past it, returns
Failed). -/
theorem C3_mixed_state_reached :
    assertMixed ((run mixedOps initState).root) = true ∧
    Node.Check ((run mixedOps initState).root) = .Failed := by
  exact ⟨by decide, by decide⟩

/-- C10: Reset leaves the global reporting options unchanged — for every
detailDepth installed via SetNewOptions, the value observed after Reset
equals the value installed, and in general Reset does not touch the
options field at all. -/
theorem C10_reset_preserves_options (s : State) (newOptions : Options) :
    (Reset (SetNewOptions newOptions s)).opts.detailDepth = newOptions.detailDepth ∧
    (Reset s).opts = s.opts :=
  ⟨rfl, rfl⟩

/-- C6: entering a named scope attaches a child segment whose
hasFailedFlag is a snapshot of the parent's hasFailedFlag at attach time
(so a child attached under a failed parent starts pre-failed), and the
snapshot is not live-tracked: a child attached under an unfailed parent
still carries flag false after the scope is left and a failing REQUIRE
flips the parent's own flag to true. -/
theorem C6_child_flag_snapshot (s : State) (name msg file : String) (line : Nat)
    (nm : String) (ns : List Node) (df : Bool)
    (h : getAt s.root (topPath s) = some (.seg nm ns df)) :
    (enterScope name s).stack = (topPath s ++ [ns.length]) :: s.stack ∧
    getAt (enterScope name s).root (topPath s ++ [ns.length]) = some (.seg name [] df) ∧
    (df = false →
      getAt (requireOp msg file line false (exitScope (enterScope name s))).root
          (topPath s ++ [ns.length]) = some (.seg name [] false) ∧
      getAt (requireOp msg file line false (exitScope (enterScope name s))).root (topPath s) =
        some (.seg nm ((ns ++ [.seg name [] false]) ++ [.task msg file line .Failed]) true)) := by
  have hroot1 : (enterScope name s).root =
      updateAt (fun n => addSegment n (Segment.Build name)) s.root (topPath s) := by
    simp [enterScope, h]
  have hstack1 : (enterScope name s).stack = (topPath s ++ [ns.length]) :: s.stack := by
    simp [enterScope, h]
  have h1 : getAt (enterScope name s).root (topPath s) =
      some (.seg nm (ns ++ [.seg name [] df]) df) := by
    rw [hroot1, getAt_updateAt_self _ _ _ _ h]
    simp [addSegment, Segment.Build]
  have hchild : getAt (enterScope name s).root (topPath s ++ [ns.length]) =
      some (.seg name [] df) := by
    rw [getAt_append, h1]
    simp [getAt, List.getElem?_concat_length]
  refine ⟨hstack1, hchild, ?_⟩
  rintro rfl
  have hst2 : (exitScope (enterScope name s)).stack = s.stack := by
    simp [exitScope, hstack1]
  have htop2 : topPath (exitScope (enterScope name s)) = topPath s := by
    simp [topPath, hst2]
  have hroot2 : (exitScope (enterScope name s)).root = (enterScope name s).root := rfl
  have h2 : getAt (exitScope (enterScope name s)).root (topPath (exitScope (enterScope name s))) =
      some (.seg nm (ns ++ [.seg name [] false]) false) := by
    rw [hroot2, htop2]
    exact h1
  have hroot3 : (requireOp msg file line false (exitScope (enterScope name s))).root =
      updateAt
        (fun n => addTask (markFailed n) (Task.BuildWithResult msg file line false))
        (enterScope name s).root (topPath s) := by
    simp [requireOp, h2, htop2, hroot2, h1]
  have hf : (fun n => addTask (markFailed n) (Task.BuildWithResult msg file line false))
      (.seg nm (ns ++ [.seg name [] false]) false) =
      .seg nm ((ns ++ [.seg name [] false]) ++ [.task msg file line .Failed]) true := by
    simp [addTask, markFailed, Task.BuildWithResult]
  constructor
  · rw [hroot3]
    rw [getAt_updateAt_old_child
      (fun n => addTask (markFailed n) (Task.BuildWithResult msg file line false))
      (enterScope name s).root (topPath s) nm (ns ++ [.seg name [] false]) false h1
      nm [.task msg file line .Failed] true hf ns.length (by simp) []]
    exact hchild
  · rw [hroot3, getAt_updateAt_self _ _ _ _ h1]
    simp [addTask, markFailed, Task.BuildWithResult]

/-- Witness for C6: a child entered under the failed segment "P" starts
pre-failed; a child entered under the fresh segment "P" starts unfailed
and stays unfailed after the parent records a failure. -/
theorem C6_child_flag_snapshot_witness :
    getAt (enterScope "C" (run [.enter "P", .require "x" "g" 1 false] initState)).root [0, 1] =
        some (.seg "C" [] true) ∧
    getAt (requireOp "x" "g" 2 false (exitScope (enterScope "C" (run [.enter "P"] initState)))).root
        [0, 0] = some (.seg "C" [] false) :=
  ⟨(C6_child_flag_snapshot (run [.enter "P", .require "x" "g" 1 false] initState)
      "C" "x" "g" 2 "P" [.task "x" "g" 1 .Failed] true rfl).2.1,
   ((C6_child_flag_snapshot (run [.enter "P"] initState)
      "C" "x" "g" 2 "P" [] false rfl).2.2 rfl).1⟩

/-- C7: a task rendered at negative depth produces the empty string; at
depth d at least 0 the line starts with d*2 spaces; a Failed task's line
carries the appended source-location suffix (file plus line); a Passed or
NotRun task's line is exactly indentation, glyph, space, name and the
ANSI reset, with no location appended. -/
theorem C7_task_location_rendering (name file : String) (line : Nat) (outcome : Outcome)
    (depth : Int) :
    (depth < 0 → stringifyTask name file line outcome depth = "") ∧
    (0 ≤ depth →
      (∃ rest, stringifyTask name file line outcome depth = spaces (2 * depth.toNat) ++ rest) ∧
      (outcome = .Failed →
        stringifyTask name file line outcome depth =
          spaces (2 * depth.toNat) ++ (taskGlyph .Failed ++ (" " ++ (name ++
            (taskLocation file line ++ ANSI_RESET))))) ∧
      (outcome ≠ .Failed →
        stringifyTask name file line outcome depth =
          spaces (2 * depth.toNat) ++ (taskGlyph outcome ++ (" " ++ (name ++ ANSI_RESET))))) := by
  refine ⟨?_, ?_⟩
  · intro hd
    simp [stringifyTask, hd]
  · intro hd
    have hd' : ¬ depth < 0 := by omega
    refine ⟨?_, ?_, ?_⟩
    · refine ⟨taskGlyph outcome ++ " " ++ name ++
        (if outcome = .Failed then taskLocation file line else "") ++ ANSI_RESET, ?_⟩
      rcases houtcome : outcome with _ | _ | _ <;>
        simp [stringifyTask, hd', String.append_assoc]
    · rintro rfl
      simp [stringifyTask, hd', String.append_assoc]
    · intro ho
      rcases houtcome : outcome with _ | _ | _ <;>
        simp_all [stringifyTask, hd', String.append_assoc]

/-- Witness for C7: concrete renderings of a failed task at depth 1
(location appended), a passed task at depth 1 (no location) and a passed
task at depth -1 (empty). -/
theorem C7_task_location_rendering_witness :
    stringifyTask "t" "file.cpp" 42 .Passed (-1) = "" ∧
    stringifyTask "t" "file.cpp" 42 .Failed 1 =
      spaces 2 ++ (taskGlyph .Failed ++ (" " ++ ("t" ++
        (taskLocation "file.cpp" 42 ++ ANSI_RESET)))) ∧
    stringifyTask "t" "file.cpp" 42 .Passed 1 =
      spaces 2 ++ (taskGlyph .Passed ++ (" " ++ ("t" ++ ANSI_RESET))) :=
  ⟨(C7_task_location_rendering "t" "file.cpp" 42 .Passed (-1)).1 (by decide),
   ((C7_task_location_rendering "t" "file.cpp" 42 .Failed 1).2 (by decide)).2.1 rfl,
   ((C7_task_location_rendering "t" "file.cpp" 42 .Passed 1).2 (by decide)).2.2 (by decide)⟩

/-- Structural form of Stringify(const Segment*, int): the output is the
header (summary line) with, exactly when the childrenRendered condition
holds, the children loop run over it, followed by the trailing ANSI
reset. -/
theorem stringifySeg_eq (dd : Int) (nm : String) (ns : List Node) (df : Bool) (depth : Int) :
    stringifySeg dd (.seg nm ns df) depth =
      (if childrenRendered dd (.seg nm ns df) depth then
        stringifyChildren dd ns depth (segHeader nm (Node.Check (.seg nm ns df)) depth)
      else segHeader nm (Node.Check (.seg nm ns df)) depth) ++ ANSI_RESET := by
  by_cases ho : Node.Check (.seg nm ns df) = .None
  · have hcr : ¬ childrenRendered dd (.seg nm ns df) depth := by
      simp [childrenRendered, ho]
    simp [stringifySeg, segHeader, ho, hcr]
  · have hcr : childrenRendered dd (.seg nm ns df) depth ↔
        (depth < uint16Cast dd ∨ Node.Check (.seg nm ns df) = .Failed) := by
      simp [childrenRendered, ho]
    by_cases hd : depth < 0
    · simp only [stringifySeg, segHeader, ho, hd, if_true, if_false, ite_true, ite_false,
        if_pos hd]
      rw [if_congr hcr rfl rfl, if_pos ho]
    · simp only [stringifySeg, segHeader, ho, hd, if_true, if_false, ite_true, ite_false,
        if_neg hd]
      rw [if_congr hcr rfl rfl, if_pos ho]

/-- C5 amended: children of a rendered segment are rendered (recursively,
each at depth+1, in insertion order by the children loop) if and only if
the segment's own aggregate outcome is not NotRun AND (the outcome is
Failed, or the current depth is within the configured detailDepth budget,
the budget comparison being depth < (uint16_t)detailDepth, which for
detailDepth = -1 and rendering depths up to 65534 means unlimited
expansion, and for a non-negative detailDepth caps the expanded nesting
levels). The claim's condition lacks the outcome-not-NotRun conjunct: a
NotRun segment never has its children rendered. -/
theorem C5_children_expansion (dd : Int) (nm : String) (ns : List Node) (df : Bool)
    (depth : Int) (hd1 : -1 ≤ depth) (hd2 : depth ≤ 65534)
    (hdd : dd = -1 ∨ (0 ≤ dd ∧ dd ≤ 65535)) :
    stringifySeg dd (.seg nm ns df) depth =
      (if childrenRendered dd (.seg nm ns df) depth then
        stringifyChildren dd ns depth (segHeader nm (Node.Check (.seg nm ns df)) depth)
      else segHeader nm (Node.Check (.seg nm ns df)) depth) ++ ANSI_RESET ∧
    (childrenRendered dd (.seg nm ns df) depth ↔
      (Node.Check (.seg nm ns df) ≠ .None ∧
        (Node.Check (.seg nm ns df) = .Failed ∨ dd = -1 ∨ depth < dd))) := by
  refine ⟨stringifySeg_eq dd nm ns df depth, ?_⟩
  have harith : (depth < uint16Cast dd) ↔ (dd = -1 ∨ depth < dd) := by
    show depth < dd % 65536 ↔ _
    rcases hdd with rfl | ⟨h1, h2⟩ <;> omega
  rw [childrenRendered, harith]
  tauto

/-- C5 counterexample: the segment "A" holding exactly one empty
sub-segment "B" has aggregate outcome NotRun (not Failed); rendered at
depth 0 with detailDepth -1 the claim says its children must be rendered
(depth 0 is within the unlimited budget), yet the rendering condition is
false and the output is the bare summary line, containing no trace of
"B". -/
theorem C5_children_expansion_counterexample :
    Node.Check (.seg "A" [.seg "B" [] false] false) ≠ .Failed ∧
    ((0 : Int) < uint16Cast (-1)) ∧
    ¬ childrenRendered (-1) (.seg "A" [.seg "B" [] false] false) 0 ∧
    stringifySeg (-1) (.seg "A" [.seg "B" [] false] false) 0 =
      ANSI_GRAY ++ "A" ++ ANSI_RESET := by
  exact ⟨by decide, by decide, by decide, by decide⟩

/-- Witness for the amended C5 at a concrete failed segment: one failed
task forces the rendering condition at depth 3 under detailDepth 0. -/
theorem C5_children_expansion_witness :
    childrenRendered 0 (.seg "S" [.task "t" "f" 1 .Failed] true) 3 ↔
      (Node.Check (.seg "S" [.task "t" "f" 1 .Failed] true) ≠ .None ∧
        (Node.Check (.seg "S" [.task "t" "f" 1 .Failed] true) = .Failed ∨ (0 : Int) = -1 ∨
          (3 : Int) < 0)) :=
  (C5_children_expansion 0 "S" [.task "t" "f" 1 .Failed] true 3 (by decide) (by decide)
    (Or.inr ⟨by decide, by decide⟩)).2

/-- Updating anywhere below a segment root through a function that keeps
a segment's name keeps the root a segment with the same name. -/
theorem updateAt_root_seg (f : Node → Node) (nm : String) (cs : List Node) (df : Bool)
    (hf : ∀ nm0 ns0 df0, ∃ ns1 df1, f (.seg nm0 ns0 df0) = .seg nm0 ns1 df1)
    (p : List Nat) :
    ∃ cs' df', updateAt f (.seg nm cs df) p = .seg nm cs' df' := by
  cases p with
  | nil => exact hf nm cs df
  | cons i p' =>
      simp only [updateAt]
      rcases hg : cs[i]? with _ | c
      · exact ⟨cs, df, rfl⟩
      · exact ⟨cs.set i (updateAt f c p'), df, rfl⟩

/-- Every public-API operation keeps the root a segment and keeps its
name. -/
theorem applyOp_root_seg (op : Op) (s : State) (nm : String) (cs : List Node) (df : Bool)
    (h : s.root = .seg nm cs df) :
    ∃ cs' df', (applyOp op s).root = .seg nm cs' df' := by
  cases op with
  | enter name =>
      show ∃ cs' df', (enterScope name s).root = _
      unfold enterScope
      rcases hg : getAt s.root (topPath s) with _ | n
      · simp only [hg]
        exact ⟨cs, df, h⟩
      · cases n with
        | task a b c d =>
            simp only [hg]
            exact ⟨cs, df, h⟩
        | seg a b c =>
            simp only [hg]
            rw [h]
            exact updateAt_root_seg _ nm cs df
              (fun nm0 ns0 df0 => ⟨ns0 ++ [.seg name [] df0], df0, rfl⟩) (topPath s)
  | leave => exact ⟨cs, df, h⟩
  | require m f l c =>
      show ∃ cs' df', (requireOp m f l c s).root = _
      unfold requireOp
      rcases hg : getAt s.root (topPath s) with _ | n
      · simp only [hg]
        exact ⟨cs, df, h⟩
      · cases n with
        | task a b cc d =>
            simp only [hg]
            exact ⟨cs, df, h⟩
        | seg a b dfn =>
            simp only [hg]
            by_cases hdf : dfn = true
            · rw [if_pos hdf, h]
              exact updateAt_root_seg _ nm cs df
                (fun nm0 ns0 df0 => ⟨ns0 ++ [.task m f l .None], df0, rfl⟩) (topPath s)
            · rw [if_neg hdf, h]
              refine updateAt_root_seg _ nm cs df ?_ (topPath s)
              intro nm0 ns0 df0
              cases c with
              | false =>
                  exact ⟨ns0 ++ [Task.BuildWithResult m f l false], true, rfl⟩
              | true =>
                  exact ⟨ns0 ++ [Task.BuildWithResult m f l true], df0, rfl⟩
  | check m f l c =>
      show ∃ cs' df', (checkOp m f l c s).root = _
      unfold checkOp
      rcases hg : getAt s.root (topPath s) with _ | n
      · simp only [hg]
        exact ⟨cs, df, h⟩
      · cases n with
        | task a b cc d =>
            simp only [hg]
            exact ⟨cs, df, h⟩
        | seg a b dfn =>
            simp only [hg]
            by_cases hdf : dfn = true
            · rw [if_pos hdf, h]
              exact updateAt_root_seg _ nm cs df
                (fun nm0 ns0 df0 => ⟨ns0 ++ [.task m f l .None], df0, rfl⟩) (topPath s)
            · rw [if_neg hdf, h]
              exact updateAt_root_seg _ nm cs df
                (fun nm0 ns0 df0 => ⟨ns0 ++ [Task.BuildWithResult m f l c], df0, rfl⟩)
                (topPath s)
  | setOpts o => exact ⟨cs, df, h⟩
  | genReport => exact ⟨cs, df, h⟩

/-- Running any operation sequence keeps the root a segment and keeps
its name. -/
theorem run_root_seg (ops : List Op) :
    ∀ (s : State) (nm : String) (cs : List Node) (df : Bool), s.root = .seg nm cs df →
      ∃ cs' df', (run ops s).root = .seg nm cs' df' := by
  induction ops with
  | nil => exact fun s nm cs df h => ⟨cs, df, h⟩
  | cons op rest ih =>
      intro s nm cs df h
      rcases applyOp_root_seg op s nm cs df h with ⟨cs1, df1, h1⟩
      exact ih (applyOp op s) nm cs1 df1 h1

/-- Rendering the fresh empty root at depth -1 does not depend on the
configured detailDepth (the outcome is None, so the children guard is
never consulted). -/
theorem stringifySeg_empty_root (dd : Int) :
    stringifySeg dd (.seg "" [] false) (-1) = stringifySeg (-1) (.seg "" [] false) (-1) := by
  simp [stringifySeg, Node.Check]

/-- C8: after any prior sequence of recording and scope operations,
Reset leaves the scope stack containing exactly the root, clears the root
segment's children and failed flag, and a subsequent GenerateReport
yields the same string as GenerateReport on the freshly initialized
state. -/
theorem C8_reset_restores_fresh (ops : List Op) :
    (Reset (run ops initState)).stack = [[]] ∧
    (Reset (run ops initState)).root = Node.seg "" [] false ∧
    GenerateReport (Reset (run ops initState)) = GenerateReport initState := by
  rcases run_root_seg ops initState "" [] false rfl with ⟨cs, df, hroot⟩
  have h2 : (Reset (run ops initState)).root = Node.seg "" [] false := by
    simp [Reset, hroot]
  refine ⟨rfl, h2, ?_⟩
  show dropLeadingNewlines (stringifySeg (Reset (run ops initState)).opts.detailDepth
      (Reset (run ops initState)).root (-1)) = _
  rw [h2, stringifySeg_empty_root]
  rfl

/-- In a chained stack every entry is an initial portion of the top. -/
theorem stackChain_isPre :
    ∀ (rest : List (List Nat)) (p : List Nat), stackChain (p :: rest) →
      ∀ q ∈ p :: rest, isPre q p := by
  intro rest
  induction rest with
  | nil =>
      intro p _ q hq
      rcases List.mem_singleton.mp hq with rfl
      exact ⟨[], by simp⟩
  | cons q' rest' ih =>
      intro p hchain q hq
      rcases hchain with ⟨⟨i, rfl⟩, hchain'⟩
      rcases List.mem_cons.mp hq with rfl | hq'
      · exact ⟨[], by simp⟩
      · rcases ih q' hchain' q hq' with ⟨r, rfl⟩
        exact ⟨r ++ [i], by simp⟩

/-- A chained stack ends with the root path. -/
theorem stackChain_getLast :
    ∀ st : List (List Nat), stackChain st → st.getLast? = some [] := by
  intro st
  induction st with
  | nil => intro h; exact absurd h (by simp [stackChain])
  | cons p rest ih =>
      intro h
      cases rest with
      | nil =>
          have hp : p = [] := h
          simp [hp]
      | cons q rest' =>
          rcases h with ⟨_, h'⟩
          rw [List.getLast?_cons_cons]
          exact ih h'

/-- A chained stack is nonempty. -/
theorem stackChain_ne_nil (st : List (List Nat)) (h : stackChain st) : st ≠ [] := by
  intro hnil
  rw [hnil] at h
  simp [stackChain] at h

/-- Updating the tree at the top-of-stack path through a function that
keeps segments segments preserves the stack-tree invariant. -/
theorem inv_update_top (s : State) (f : Node → Node)
    (hf : ∀ nm ns df, ∃ nm' ns' df', f (.seg nm ns df) = .seg nm' ns' df')
    (hInv : Inv s) :
    Inv { s with root := updateAt f s.root (topPath s) } := by
  rcases hInv with ⟨hchain, hseg⟩
  refine ⟨hchain, ?_⟩
  intro q hq
  rcases hst : s.stack with _ | ⟨p, rest⟩
  · rw [hst] at hchain
    simp [stackChain] at hchain
  · have htop : topPath s = p := by simp [topPath, hst]
    have hq' : q ∈ s.stack := hq
    rw [htop]
    apply isSegAtB_updateAt f hf q p s.root
    · exact stackChain_isPre rest p (hst ▸ hchain) q (hst ▸ hq')
    · exact hseg q hq'

/-- Entering a scope preserves the invariant and grows the stack by
exactly one entry. -/
theorem inv_enterScope (s : State) (name : String) (hInv : Inv s) :
    Inv (enterScope name s) ∧ (enterScope name s).stack.length = s.stack.length + 1 := by
  rcases hInv with ⟨hchain, hseg⟩
  rcases hst : s.stack with _ | ⟨p, rest⟩
  · rw [hst] at hchain
    simp [stackChain] at hchain
  have htop : topPath s = p := by simp [topPath, hst]
  have hmem : p ∈ s.stack := by rw [hst]; exact List.mem_cons_self p rest
  have hsegp : isSegAtB s.root p = true := hseg p hmem
  rcases hget : getAt s.root p with _ | n
  · simp [isSegAtB, hget] at hsegp
  cases n with
  | task a b c d => simp [isSegAtB, hget] at hsegp
  | seg nm0 ns0 df0 =>
      have hes : enterScope name s =
          { s with
            root := updateAt (fun n => addSegment n (Segment.Build name)) s.root p,
            stack := (p ++ [ns0.length]) :: s.stack } := by
        simp [enterScope, htop, hget]
      rw [hes]
      have hf : ∀ nm1 ns1 df1, ∃ nm' ns' df',
          addSegment (.seg nm1 ns1 df1) (Segment.Build name) = .seg nm' ns' df' :=
        fun nm1 ns1 df1 =>
          ⟨nm1, ns1 ++ [.seg name [] df1], df1, by simp [addSegment, Segment.Build]⟩
      refine ⟨⟨?_, ?_⟩, by simp [hst]⟩
      · rw [hst]
        exact ⟨⟨ns0.length, rfl⟩, hst ▸ hchain⟩
      · intro q hq
        rcases List.mem_cons.mp hq with rfl | hq'
        · have hnew : getAt (updateAt (fun n => addSegment n (Segment.Build name)) s.root p)
              (p ++ [ns0.length]) = some (.seg name [] df0) := by
            rw [getAt_append, getAt_updateAt_self _ _ _ _ hget]
            simp only [Option.some_bind, addSegment, Segment.Build]
            simp [getAt, List.getElem?_concat_length]
          simp [isSegAtB, hnew]
        · apply isSegAtB_updateAt _ hf q p s.root
          · exact stackChain_isPre rest p (hst ▸ hchain) q (hst ▸ hq')
          · exact hseg q hq'

/-- Leaving a scope with at least two stack entries preserves the
invariant and shrinks the stack by exactly one entry. -/
theorem inv_exitScope (s : State) (hInv : Inv s) (hlen : 2 ≤ s.stack.length) :
    Inv (exitScope s) ∧ (exitScope s).stack.length = s.stack.length - 1 := by
  rcases hInv with ⟨hchain, hseg⟩
  rcases hst : s.stack with _ | ⟨p, rest⟩
  · rw [hst] at hchain
    simp [stackChain] at hchain
  rcases rest with _ | ⟨q, rest'⟩
  · rw [hst] at hlen
    simp at hlen
  have hch : stackChain (q :: rest') := by
    rw [hst] at hchain
    exact hchain.2
  refine ⟨⟨?_, ?_⟩, ?_⟩
  · show stackChain s.stack.tail
    rw [hst]
    exact hch
  · intro r hr
    have hr' : r ∈ s.stack.tail := hr
    rw [hst] at hr'
    simp only [List.tail_cons] at hr'
    have : r ∈ s.stack := by
      rw [hst]
      exact List.mem_cons_of_mem p hr'
    exact hseg r this
  · rw [exitScope, hst]
    simp

/-- Recording a strict assertion preserves the invariant and the stack. -/
theorem inv_requireOp (s : State) (m f : String) (l : Nat) (c : Bool) (hInv : Inv s) :
    Inv (requireOp m f l c s) ∧ (requireOp m f l c s).stack = s.stack := by
  have hchain := hInv.1
  rcases hst : s.stack with _ | ⟨p, rest⟩
  · rw [hst] at hchain
    simp [stackChain] at hchain
  have htop : topPath s = p := by simp [topPath, hst]
  have hmem : p ∈ s.stack := by rw [hst]; exact List.mem_cons_self p rest
  have hsegp : isSegAtB s.root p = true := hInv.2 p hmem
  rcases hget : getAt s.root p with _ | n
  · simp [isSegAtB, hget] at hsegp
  cases n with
  | task a b cc d => simp [isSegAtB, hget] at hsegp
  | seg nm0 ns0 df0 =>
      by_cases hdf : df0 = true
      · have he : requireOp m f l c s =
            { s with
              root := updateAt (fun n => addTask n (Task.BuildNoResult m f l)) s.root
                (topPath s) } := by
          simp [requireOp, htop, hget, hdf]
        rw [he]
        exact ⟨inv_update_top s _ (fun nm1 ns1 df1 =>
          ⟨nm1, ns1 ++ [Task.BuildNoResult m f l], df1, rfl⟩) hInv, hst⟩
      · have he : requireOp m f l c s =
            { s with
              root := updateAt
                (fun n => addTask (if c then n else markFailed n)
                  (Task.BuildWithResult m f l c)) s.root (topPath s) } := by
          simp [requireOp, htop, hget, hdf]
        rw [he]
        refine ⟨inv_update_top s _ ?_ hInv, hst⟩
        intro nm1 ns1 df1
        cases c with
        | false => exact ⟨nm1, ns1 ++ [Task.BuildWithResult m f l false], true, rfl⟩
        | true => exact ⟨nm1, ns1 ++ [Task.BuildWithResult m f l true], df1, rfl⟩

/-- Recording a soft assertion preserves the invariant and the stack. -/
theorem inv_checkOp (s : State) (m f : String) (l : Nat) (c : Bool) (hInv : Inv s) :
    Inv (checkOp m f l c s) ∧ (checkOp m f l c s).stack = s.stack := by
  have hchain := hInv.1
  rcases hst : s.stack with _ | ⟨p, rest⟩
  · rw [hst] at hchain
    simp [stackChain] at hchain
  have htop : topPath s = p := by simp [topPath, hst]
  have hmem : p ∈ s.stack := by rw [hst]; exact List.mem_cons_self p rest
  have hsegp : isSegAtB s.root p = true := hInv.2 p hmem
  rcases hget : getAt s.root p with _ | n
  · simp [isSegAtB, hget] at hsegp
  cases n with
  | task a b cc d => simp [isSegAtB, hget] at hsegp
  | seg nm0 ns0 df0 =>
      by_cases hdf : df0 = true
      · have he : checkOp m f l c s =
            { s with
              root := updateAt (fun n => addTask n (Task.BuildNoResult m f l)) s.root
                (topPath s) } := by
          simp [checkOp, htop, hget, hdf]
        rw [he]
        exact ⟨inv_update_top s _ (fun nm1 ns1 df1 =>
          ⟨nm1, ns1 ++ [Task.BuildNoResult m f l], df1, rfl⟩) hInv, hst⟩
      · have he : checkOp m f l c s =
            { s with
              root := updateAt (fun n => addTask n (Task.BuildWithResult m f l c)) s.root
                (topPath s) } := by
          simp [checkOp, htop, hget, hdf]
        rw [he]
        exact ⟨inv_update_top s _ (fun nm1 ns1 df1 =>
          ⟨nm1, ns1 ++ [Task.BuildWithResult m f l c], df1, rfl⟩) hInv, hst⟩

/-- A sequence whose every initial portion keeps the leave count below
the entry count plus the current depth is safe to run at that depth. -/
theorem safeFrom_of_counts :
    ∀ (ops : List Op) (d : Nat),
      (∀ k, leavesCount (ops.take k) + 1 ≤ d + entersCount (ops.take k)) → SafeFrom d ops := by
  intro ops
  induction ops with
  | nil =>
      intro d _
      trivial
  | cons op rest ih =>
      intro d h
      cases op with
      | leave =>
          have h1 := h 1
          simp only [List.take_succ_cons, List.take_zero, leavesCount, entersCount,
            List.countP_cons, List.countP_nil] at h1
          have h2 : 2 ≤ d := by
            simp at h1
            omega
          show 2 ≤ d ∧ SafeFrom (d - 1) rest
          refine ⟨h2, ih (d - 1) ?_⟩
          intro k
          have hk := h (k + 1)
          simp only [List.take_succ_cons, leavesCount, entersCount, List.countP_cons] at hk ⊢
          simp at hk
          omega
      | enter name =>
          show SafeFrom (d + 1) rest
          apply ih
          intro k
          have hk := h (k + 1)
          simp only [List.take_succ_cons, leavesCount, entersCount, List.countP_cons] at hk ⊢
          simp at hk
          omega
      | require m f l c =>
          show SafeFrom d rest
          apply ih
          intro k
          have hk := h (k + 1)
          simp only [List.take_succ_cons, leavesCount, entersCount, List.countP_cons] at hk ⊢
          simp at hk
          omega
      | check m f l c =>
          show SafeFrom d rest
          apply ih
          intro k
          have hk := h (k + 1)
          simp only [List.take_succ_cons, leavesCount, entersCount, List.countP_cons] at hk ⊢
          simp at hk
          omega
      | setOpts o =>
          show SafeFrom d rest
          apply ih
          intro k
          have hk := h (k + 1)
          simp only [List.take_succ_cons, leavesCount, entersCount, List.countP_cons] at hk ⊢
          simp at hk
          omega
      | genReport =>
          show SafeFrom d rest
          apply ih
          intro k
          have hk := h (k + 1)
          simp only [List.take_succ_cons, leavesCount, entersCount, List.countP_cons] at hk ⊢
          simp at hk
          omega

/-- Balancedness gives the count inequality for every take, of any
size. -/
theorem balanced_counts (ops : List Op) (h : Balanced ops) :
    ∀ k, leavesCount (ops.take k) ≤ entersCount (ops.take k) := by
  intro k
  by_cases hk : k ≤ ops.length
  · exact h k hk
  · rw [List.take_of_length_le (by omega)]
    have hfull := h ops.length le_rfl
    rwa [List.take_length] at hfull

/-- Running a safe sequence preserves the stack-tree invariant, and the
final stack length is the initial one plus the entries minus the
leaves. -/
theorem run_inv :
    ∀ (ops : List Op) (s : State), Inv s → SafeFrom s.stack.length ops →
      Inv (run ops s) ∧
        ((run ops s).stack.length : Int) =
          (s.stack.length : Int) + entersCount ops - leavesCount ops := by
  intro ops
  induction ops with
  | nil =>
      intro s hInv _
      refine ⟨hInv, ?_⟩
      simp [run, entersCount, leavesCount]
  | cons op rest ih =>
      intro s hInv hsafe
      cases op with
      | enter name =>
          rcases inv_enterScope s name hInv with ⟨hInv1, hlen1⟩
          have hsafe1 : SafeFrom (enterScope name s).stack.length rest := by
            rw [hlen1]
            exact hsafe
          rcases ih (enterScope name s) hInv1 hsafe1 with ⟨hInv2, hlen2⟩
          refine ⟨hInv2, ?_⟩
          show ((run rest (enterScope name s)).stack.length : Int) = _
          rw [hlen2, hlen1]
          simp only [entersCount, leavesCount, List.countP_cons]
          simp
          omega
      | leave =>
          have hsafe' : 2 ≤ s.stack.length ∧ SafeFrom (s.stack.length - 1) rest := hsafe
          rcases hsafe' with ⟨h2, hsr⟩
          rcases inv_exitScope s hInv h2 with ⟨hInv1, hlen1⟩
          have hsafe1 : SafeFrom (exitScope s).stack.length rest := by
            rw [hlen1]
            exact hsr
          rcases ih (exitScope s) hInv1 hsafe1 with ⟨hInv2, hlen2⟩
          refine ⟨hInv2, ?_⟩
          show ((run rest (exitScope s)).stack.length : Int) = _
          rw [hlen2, hlen1]
          simp only [entersCount, leavesCount, List.countP_cons]
          simp
          omega
      | require m f l c =>
          rcases inv_requireOp s m f l c hInv with ⟨hInv1, hst1⟩
          have hsafe1 : SafeFrom (requireOp m f l c s).stack.length rest := by
            rw [hst1]
            exact hsafe
          rcases ih (requireOp m f l c s) hInv1 hsafe1 with ⟨hInv2, hlen2⟩
          refine ⟨hInv2, ?_⟩
          show ((run rest (requireOp m f l c s)).stack.length : Int) = _
          rw [hlen2, hst1]
          simp only [entersCount, leavesCount, List.countP_cons]
          simp
      | check m f l c =>
          rcases inv_checkOp s m f l c hInv with ⟨hInv1, hst1⟩
          have hsafe1 : SafeFrom (checkOp m f l c s).stack.length rest := by
            rw [hst1]
            exact hsafe
          rcases ih (checkOp m f l c s) hInv1 hsafe1 with ⟨hInv2, hlen2⟩
          refine ⟨hInv2, ?_⟩
          show ((run rest (checkOp m f l c s)).stack.length : Int) = _
          rw [hlen2, hst1]
          simp only [entersCount, leavesCount, List.countP_cons]
          simp
      | setOpts o =>
          have hInv1 : Inv (SetNewOptions o s) := hInv
          have hsafe1 : SafeFrom (SetNewOptions o s).stack.length rest := hsafe
          rcases ih (SetNewOptions o s) hInv1 hsafe1 with ⟨hInv2, hlen2⟩
          refine ⟨hInv2, ?_⟩
          show ((run rest (SetNewOptions o s)).stack.length : Int) = _
          rw [hlen2]
          simp only [entersCount, leavesCount, List.countP_cons]
          simp
          rfl
      | genReport =>
          rcases ih s hInv hsafe with ⟨hInv2, hlen2⟩
          refine ⟨hInv2, ?_⟩
          show ((run rest s).stack.length : Int) = _
          rw [hlen2]
          simp only [entersCount, leavesCount, List.countP_cons]
          simp

/-- C9: under every balanced sequence of operations starting from the
initial state, the scope stack is never empty, its bottom is always the
root, its top always denotes a segment of the tree reachable from the
root, its length is one plus entries minus leaves, and a scope exit —
which pops exactly one entry, the appended leave replacing the stack with
its tail — only ever happens (in a sequence that stays balanced) when the
stack holds more than one entry, so the sole root is never popped. -/
theorem C9_scope_stack_invariant (ops : List Op) (h : Balanced ops) :
    (run ops initState).stack ≠ [] ∧
    (run ops initState).stack.getLast? = some [] ∧
    isSegAtB (run ops initState).root (topPath (run ops initState)) = true ∧
    ((run ops initState).stack.length : Int) = 1 + entersCount ops - leavesCount ops ∧
    (Balanced (ops ++ [Op.leave]) →
      1 < (run ops initState).stack.length ∧
      (run (ops ++ [Op.leave]) initState).stack = (run ops initState).stack.tail) := by
  have hInv0 : Inv initState := by
    constructor
    · show stackChain [[]]
      simp [stackChain]
    · intro p hp
      have hp' : p ∈ [([] : List Nat)] := hp
      rcases List.mem_singleton.mp hp' with rfl
      rfl
  have hsafe : SafeFrom initState.stack.length ops := by
    apply safeFrom_of_counts
    intro k
    have hbk := balanced_counts ops h k
    show leavesCount (ops.take k) + 1 ≤ 1 + entersCount (ops.take k)
    omega
  rcases run_inv ops initState hInv0 hsafe with ⟨⟨hchain, hseg⟩, hlen⟩
  have h1cast : ((initState.stack.length : Nat) : Int) = 1 := by rfl
  rw [h1cast] at hlen
  refine ⟨stackChain_ne_nil _ hchain, stackChain_getLast _ hchain, ?_, hlen, ?_⟩
  · rcases hst : (run ops initState).stack with _ | ⟨p, rest⟩
    · exact absurd hst (stackChain_ne_nil _ hchain)
    · have htop : topPath (run ops initState) = p := by simp [topPath, hst]
      rw [htop]
      exact hseg p (by rw [hst]; exact List.mem_cons_self p rest)
  · intro hbal2
    have hcount := balanced_counts _ hbal2 (ops.length + 1)
    have htake : (ops ++ [Op.leave]).take (ops.length + 1) = ops ++ [Op.leave] := by
      apply List.take_of_length_le
      simp
    rw [htake] at hcount
    have hcounts : leavesCount ops + 1 ≤ entersCount ops := by
      simp only [leavesCount, entersCount, List.countP_append, List.countP_cons,
        List.countP_nil] at hcount ⊢
      simp at hcount
      omega
    refine ⟨by omega, ?_⟩
    have happ : run (ops ++ [Op.leave]) initState = exitScope (run ops initState) := by
      simp [run, List.foldl_append, applyOp]
    rw [happ]
    rfl

/-- Witness for C9: the balanced sequence enter "A", enter "B", leave is
run, the stack then still holds more than one entry, and the appended
leave pops exactly one entry. -/
theorem C9_scope_stack_invariant_witness :
    1 < (run [Op.enter "A", Op.enter "B", Op.leave] initState).stack.length ∧
    (run ([Op.enter "A", Op.enter "B", Op.leave] ++ [Op.leave]) initState).stack =
      (run [Op.enter "A", Op.enter "B", Op.leave] initState).stack.tail :=
  (C9_scope_stack_invariant [Op.enter "A", Op.enter "B", Op.leave]
      (by decide)).2.2.2.2 (by decide)

/-- Witness for C1 at concrete segments: the empty segment, a segment
with one failed child among passed ones, a segment of passed children and
a segment of not-run children. -/
theorem C1_segment_check_aggregation_witness :
    Node.Check (.seg "E" [] false) = .None ∧
    Node.Check (.seg "F" [.task "a" "f" 1 .Passed, .task "b" "f" 2 .Failed] false) = .Failed ∧
    Node.Check (.seg "P" [.task "a" "f" 1 .Passed] false) = .Passed ∧
    Node.Check (.seg "N" [.task "a" "f" 1 .None] false) = .None :=
  ⟨(C1_segment_check_aggregation "E" [] false).1 rfl,
   (C1_segment_check_aggregation "F" [.task "a" "f" 1 .Passed, .task "b" "f" 2 .Failed]
       false).2.1 ⟨.task "b" "f" 2 .Failed, by simp, rfl⟩,
   (C1_segment_check_aggregation "P" [.task "a" "f" 1 .Passed] false).2.2.1 (by simp)
     (by
       intro c hc
       simp only [List.mem_singleton] at hc
       subst hc
       rfl),
   (C1_segment_check_aggregation "N" [.task "a" "f" 1 .None] false).2.2.2
     (by
       intro c hc
       simp only [List.mem_singleton] at hc
       subst hc
       rfl)⟩

end TestKit


